import Mathlib

/-!
# FileTransferSystem — verification of the discovery and transfer core

Shallow embedding of the Go sources of `SameerGiri69/FileTransferSystem`
(`internal/transfer/transfer.go` in its current revision, the one the test
file compiles against, and `internal/discovery/discovery.go`), together with
proofs settling the frozen claims about the natural-language specification.

Bytes are modelled as `Nat` (values < 256 in practice; no claim depends on
the bound), Go `int64` as `Int`, Go `float64` progress/speed arithmetic as
exact rationals `ℚ`, wall-clock instants as `Int` nanoseconds.
-/

/-! ## Receive path: buffered bytes and leading-whitespace handling

From `receiveFile` (current revision): after the JSON metadata frame is
decoded, `handleIncoming` builds `io.MultiReader(decoder.Buffered(), reader)`
so that bytes the JSON decoder had already pulled into its buffer are not
lost; `receiveFile` then peeks and consumes leading `\n`, `\r`, ` ` bytes
before the chunked write loop copies everything remaining into the file. -/

/-- A byte the skip loop in `receiveFile` treats as frame-delimiter
whitespace: `\n` (10), `\r` (13) or space (32). -/
def isWireWhitespace (b : Nat) : Bool :=
  b = 10 || b = 13 || b = 32

/-- The peek-and-consume loop at the top of `receiveFile`: while the next
byte is `\n`, `\r` or a space, consume it; stop at the first other byte or
at end of stream. -/
def skipLoop : List Nat → List Nat
  | [] => []
  | b :: rest => if isWireWhitespace b then skipLoop rest else b :: rest

/-- `io.MultiReader(decoder.Buffered(), reader)`: the stream the receive
loop sees is the decoder's already-buffered bytes followed by the rest of
the connection. -/
def combinedStream (buffered rest : List Nat) : List Nat :=
  buffered ++ rest

/-- The bytes `receiveFile` writes to the saved file: the combined stream
with the leading whitespace run consumed, then copied chunk by chunk
(chunking does not change content). -/
def receivedFileBytes (buffered rest : List Nat) : List Nat :=
  skipLoop (combinedStream buffered rest)

/-! ## Device registry and discovery (`internal/discovery/discovery.go`) -/

/-- `models.Device`: a discovered peer. `lastSeen` is an instant in
nanoseconds. -/
structure Device where
  id : String
  name : String
  username : String
  ip : String
  port : Int
  lastSeen : Int
deriving DecidableEq, Repr

/-- 10 seconds, in nanoseconds (`10 * time.Second`). -/
def livenessWindow : Int := 10 * 1000000000

/-- The registry `Service.devices`: a map from device id to record, here an
association list with unique keys. -/
abbrev Registry := List (String × Device)

/-- `listenDiscovery`'s registry update on a well-formed, non-self
advertisement: `s.devices[id] = &models.Device{..., LastSeen: time.Now()}`
— insert or overwrite the record under `id`. -/
def upsertDevice (reg : Registry) (d : Device) : Registry :=
  if (reg.lookup d.id).isSome then
    reg.map (fun e => if e.1 = d.id then (d.id, d) else e)
  else
    reg ++ [(d.id, d)]

/-- `GetDevices` ("returns devices seen in the last 10 seconds"): keep the
records with `time.Since(d.LastSeen) < 10*time.Second`. -/
def GetDevices (reg : Registry) (now : Int) : List Device :=
  (reg.map (·.2)).filter (fun d => now - d.lastSeen < livenessWindow)

/-- `GetDevice`: plain map lookup, no liveness filter. -/
def GetDevice (reg : Registry) (id : String) : Option Device :=
  reg.lookup id

/-! ## Advertiser (`broadcastPresence`)

Each iteration of the loop in `broadcastPresence` reads the current
username; if it is empty nothing is written to the socket, otherwise one
JSON datagram with the five fields `id, name, username, ip, port` is
written.  One tick is modelled as a function from the identity reported at
that tick to the datagram sent (`none` = no datagram). -/

/-- The discovery datagram body built in `broadcastPresence`. -/
structure DiscoveryDatagram where
  id : String
  name : String
  username : String
  ip : String
  port : Int
deriving DecidableEq, Repr

/-- One iteration of the `broadcastPresence` loop: `username :=
s.getUsername()`; if `username != ""` marshal and send
`{id, name, username, ip, port}`, else send nothing. -/
def broadcastTick (username deviceID deviceName localIP : String)
    (transferPort : Int) : Option DiscoveryDatagram :=
  if username = "" then none
  else some ⟨deviceID, deviceName, username, localIP, transferPort⟩

/-! ## Pending-transfer table and receive-path registration
(`handleIncoming`, current revision) -/

/-- `models.PendingTransfer` (decision channel modelled separately: the
delivered decision is returned by `AcceptTransfer`/`RejectTransfer`). -/
structure PendingTransfer where
  id : String
  fileName : String
  fileSize : Int
  senderId : String
  senderName : String
deriving DecidableEq, Repr

/-- The decoded metadata frame `wireMetadata`. -/
structure wireMetadata where
  id : String
  fileName : String
  fileSize : Int
  senderId : String
  senderName : String
deriving DecidableEq, Repr

/-- The `s.pending` table, an association list keyed by transfer id. -/
abbrev PendingTable := List (String × PendingTransfer)

/-- The pending record `handleIncoming` builds from a decoded frame. -/
def pendingOfMeta (meta : wireMetadata) : PendingTransfer :=
  ⟨meta.id, meta.fileName, meta.fileSize, meta.senderId, meta.senderName⟩

/-- The deduplication-and-registration step of `handleIncoming` (current
revision): under the lock, if `s.pending[meta.ID]` already exists the new
connection is closed and the table is left as it was; otherwise the new
`PendingTransfer` is inserted.  Returns the new table and whether the
connection was closed early. -/
def handleIncomingRegister (pending : PendingTable) (meta : wireMetadata) :
    PendingTable × Bool :=
  if (pending.lookup meta.id).isSome then (pending, true)
  else (pending ++ [(meta.id, pendingOfMeta meta)], false)

/-- `GetPending` (the `ListPending()` of the spec): the values of the
pending table. -/
def GetPending (pending : PendingTable) : List PendingTransfer :=
  pending.map (·.2)

/-- Number of entries `ListPending()` shows for a given id. -/
def pendingCountFor (pending : PendingTable) (id : String) : Nat :=
  ((GetPending pending).filter (fun p => p.id = id)).length

/-! ## Decision API (`AcceptTransfer` / `RejectTransfer`)

Both methods only read the pending table: they look the id up and, when
found, deliver the decision on the record's one-slot channel.  The tables
(`s.pending`, `s.transfers`) are not modified by either method; deletion of
the pending record happens in `handleIncoming` after the decision is
consumed. -/

/-- Result of a decision call: the pending table afterwards, the decision
delivered on the looked-up record's channel (`none` = nothing delivered),
and the error returned (`Except.error` = Go non-nil error). -/
structure DecisionResult where
  pending : PendingTable
  delivered : Option Bool
  result : Except String Unit
deriving Repr

/-- `AcceptTransfer`: look up `s.pending[id]`; absent → return the error
`no pending transfer: id` and do nothing else; present → send `true` on the
record's decision channel. -/
def AcceptTransfer (pending : PendingTable) (id : String) : DecisionResult :=
  match pending.lookup id with
  | none => ⟨pending, none, Except.error ("no pending transfer: " ++ id)⟩
  | some _ => ⟨pending, some true, Except.ok ()⟩

/-- `RejectTransfer`: as `AcceptTransfer` but delivering `false`. -/
def RejectTransfer (pending : PendingTable) (id : String) : DecisionResult :=
  match pending.lookup id with
  | none => ⟨pending, none, Except.error ("no pending transfer: " ++ id)⟩
  | some _ => ⟨pending, some false, Except.ok ()⟩

/-! ## Chunked streaming loop with progress/telemetry
(`receiveFile` read loop and `SendStream` write loop — both update the
`Transfer` record identically: `Transferred += n`; when `FileSize > 0`,
`Progress = Transferred / FileSize * 100`). -/

/-- The fields of `models.Transfer` the streaming loop mutates.  `progress`
is Go `float64`, modelled as an exact rational. -/
structure LoopState where
  transferred : Int
  progress : ℚ
deriving DecidableEq, Repr

/-- One loop iteration that read/wrote `n` bytes:
`t.Transferred += int64(n)`; `if t.FileSize > 0 { t.Progress =
float64(t.Transferred) / float64(t.FileSize) * 100 }`. -/
def chunkStep (fileSize : Int) (st : LoopState) (n : Nat) : LoopState :=
  let transferred := st.transferred + n
  let progress :=
    if 0 < fileSize then (transferred : ℚ) / (fileSize : ℚ) * 100 else st.progress
  ⟨transferred, progress⟩

/-- The per-iteration states of the streaming loop, starting from `st`,
for the given sequence of successful chunk sizes (the state before any
chunk, then after each chunk). -/
def loopStates (fileSize : Int) (st : LoopState) : List Nat → List LoopState
  | [] => [st]
  | n :: rest => st :: loopStates fileSize (chunkStep fileSize st n) rest

/-- Total bytes delivered by the chunk sequence. -/
def chunkSum (chunks : List Nat) : Int :=
  chunks.foldr (fun n acc => (n : Int) + acc) 0

/-- How the stream ends: end-of-stream (`io.EOF`) or a mid-stream I/O
error. -/
inductive StreamEnd
  | eof
  | ioError
deriving DecidableEq, Repr

/-- `transferStatus`/`events`/`history` effects at loop exit. `events` are
the `broadcast` event types emitted at termination, `history` the statuses
of the history entries recorded via `store.AddHistory`, `returnsToCaller`
whether the worker stops there (it always does — there is no retry path). -/
structure StreamEffects where
  status : String
  finalProgress : ℚ
  events : List String
  history : List String
deriving DecidableEq, Repr

/-- Loop exit of `receiveFile`: on a read error the transfer is marked
`failed`, a `transfer_update` is broadcast and a `failed` history entry is
recorded; on EOF it is marked `completed` with `Progress = 100`, a
`transfer_update` is broadcast and a `completed` history entry is
recorded.  In both cases the function returns (no retry). -/
def receiveFinish (ending : StreamEnd) (st : LoopState) : StreamEffects :=
  match ending with
  | .ioError => ⟨"failed", st.progress, ["transfer_update"], ["failed"]⟩
  | .eof => ⟨"completed", 100, ["transfer_update"], ["completed"]⟩

/-- Loop exit of `SendStream` (and of the earlier `SendFile`): on a read or
write error the transfer is marked `failed`, `EndTime` is stamped and a
`transfer_update` is broadcast, then the error is returned — no history
entry is recorded on this path; on EOF it is marked `completed` with
`Progress = 100`, a `transfer_update` is broadcast and a `completed`
history entry is recorded. -/
def sendFinish (ending : StreamEnd) (st : LoopState) : StreamEffects :=
  match ending with
  | .ioError => ⟨"failed", st.progress, ["transfer_update"], []⟩
  | .eof => ⟨"completed", 100, ["transfer_update"], ["completed"]⟩

/-- The state the loop reaches after consuming all chunks. -/
def runLoop (fileSize : Int) (st : LoopState) (chunks : List Nat) : LoopState :=
  chunks.foldl (chunkStep fileSize) st

/-- A whole receive-side streaming run: chunks, then the ending. -/
def runReceiveStream (fileSize : Int) (chunks : List Nat) (ending : StreamEnd) :
    StreamEffects :=
  receiveFinish ending (runLoop fileSize ⟨0, 0⟩ chunks)

/-- A whole send-side streaming run: chunks, then the ending. -/
def runSendStream (fileSize : Int) (chunks : List Nat) (ending : StreamEnd) :
    StreamEffects :=
  sendFinish ending (runLoop fileSize ⟨0, 0⟩ chunks)

/-- The `progress` values observable over the lifetime of a transfer that
streams `chunks` and then completes: `Progress` starts at 0, is updated
after each chunk, and is set to exactly 100 at the `completed` transition. -/
def progressLifetime (fileSize : Int) (chunks : List Nat) : List ℚ :=
  (loopStates fileSize ⟨0, 0⟩ chunks).map LoopState.progress ++ [100]

/-- Closed form of the progress value the loop maintains: starting from
`Progress = 0`, the field equals `transferred / fileSize * 100` whenever
`fileSize > 0`, and stays `0` otherwise (the guarded assignment never
fires). -/
def progressOf (fileSize t : Int) : ℚ :=
  if 0 < fileSize then (t : ℚ) / (fileSize : ℚ) * 100 else 0

/-! ## Wire codec: the newline-delimited JSON metadata frame

The sender emits the frame with `json.NewEncoder(conn).Encode(meta)`: the
Go `encoding/json` marshalling of `wireMetadata` (fields in declaration
order, string escaping with HTML escaping on, `int64` in decimal) followed
by one `\n`.  The receiver decodes with `json.NewDecoder(reader).Decode`,
whose string unescaping follows the JSON string-literal grammar
(including `\uXXXX` with surrogate-pair combination).  Characters model Go
strings restricted to valid Unicode (the only strings whose marshalling
Go does not rewrite to replacement characters, hence the valid frames). -/

/-- Lowercase hex digit, as in Go `encoding/json`'s `hex` table. -/
def hexDigitChar (d : Nat) : Char :=
  Char.ofNat (if d < 10 then 48 + d else 87 + d)

/-- Go `encodeState.string` escaping of one character, HTML escaping on
(the `json.Encoder` default): `"` `\` and the control characters are
escaped (`\n`, `\r`, `\t` short forms, other controls as `\u00XX`),
`<` `>` `&` as `\u00XX`, U+2028/U+2029 as ` `/` `, everything
else is emitted literally. -/
def escapeChar (c : Char) : List Char :=
  if c = '"' then ['\\', '"']
  else if c = '\\' then ['\\', '\\']
  else if c = '\n' then ['\\', 'n']
  else if c = '\r' then ['\\', 'r']
  else if c = '\t' then ['\\', 't']
  else if c.toNat < 32 then
    ['\\', 'u', '0', '0', hexDigitChar (c.toNat / 16), hexDigitChar (c.toNat % 16)]
  else if c = '<' then ['\\', 'u', '0', '0', '3', 'c']
  else if c = '>' then ['\\', 'u', '0', '0', '3', 'e']
  else if c = '&' then ['\\', 'u', '0', '0', '2', '6']
  else if c.toNat = 8232 then ['\\', 'u', '2', '0', '2', '8']
  else if c.toNat = 8233 then ['\\', 'u', '2', '0', '2', '9']
  else [c]

/-- Escaping of a whole string body. -/
def escapeChars : List Char → List Char
  | [] => []
  | c :: cs => escapeChar c ++ escapeChars cs

/-- A marshalled JSON string: quote, escaped body, quote. -/
def encodeJSONString (s : String) : List Char :=
  '"' :: (escapeChars s.data ++ ['"'])

/-- Decimal digit character. -/
def digitChar (d : Nat) : Char := Char.ofNat (48 + d)

/-- Decimal digits of a natural number, most significant first
(Go `strconv.AppendInt` for nonnegative values). -/
def natToDigits (n : Nat) : List Char :=
  if h : n < 10 then [digitChar n]
  else natToDigits (n / 10) ++ [digitChar (n % 10)]
termination_by n
decreasing_by
  simp at h
  omega

/-- Go's decimal form of an `int64`: optional minus sign, then digits. -/
def intToDigits (i : Int) : List Char :=
  if i < 0 then '-' :: natToDigits i.natAbs else natToDigits i.toNat

/-- Value of a hex digit character (`encoding/json.getu4` accepts both
cases). -/
def hexVal (c : Char) : Option Nat :=
  if 48 ≤ c.toNat ∧ c.toNat ≤ 57 then some (c.toNat - 48)
  else if 97 ≤ c.toNat ∧ c.toNat ≤ 102 then some (c.toNat - 87)
  else if 65 ≤ c.toNat ∧ c.toNat ≤ 70 then some (c.toNat - 55)
  else none

/-- Four hex digits (`\uXXXX`). -/
def hex4 (h1 h2 h3 h4 : Char) : Option Nat :=
  match hexVal h1, hexVal h2, hexVal h3, hexVal h4 with
  | some a, some b, some c, some d => some (a * 4096 + b * 256 + c * 16 + d)
  | _, _, _, _ => none

/-- Prepend a character to the parsed content of a string-body result. -/
def consFst (c : Char) : Option (List Char × List Char) → Option (List Char × List Char)
  | none => none
  | some (s, r) => some (c :: s, r)

/-- Continuation after a `\uXXXX` escape decoded to a surrogate value `n`:
`utf16.DecodeRune` semantics — a following `\uXXXX` low surrogate combines
with a high `n` into one code point, anything else yields U+FFFD and
consumes only the first escape. -/
def surrogateStep (n : Nat) (rest3 : List Char) : Char × List Char :=
  match rest3 with
  | b1 :: b2 :: g1 :: g2 :: g3 :: g4 :: rest4 =>
    if b1 = '\\' ∧ b2 = 'u' then
      match hex4 g1 g2 g3 g4 with
      | some m =>
        if n < 56320 ∧ 56320 ≤ m ∧ m < 57344 then
          (Char.ofNat (65536 + (n - 55296) * 1024 + (m - 56320)), rest4)
        else (Char.ofNat 65533, rest3)
      | none => (Char.ofNat 65533, rest3)
    else (Char.ofNat 65533, rest3)
  | _ => (Char.ofNat 65533, rest3)

/-- JSON string-body parsing as in `encoding/json`'s `unquote`: characters
up to the closing quote, with escape sequences decoded; `\uXXXX` hitting a
surrogate tries to combine it with a following `\uXXXX` low surrogate and
falls back to U+FFFD, as `utf16.DecodeRune` does.  Returns the decoded
content and the input remaining after the closing quote. -/
def parseStringBody (cs : List Char) : Option (List Char × List Char) :=
  match cs with
  | [] => none
  | c :: rest =>
    if c = '"' then some ([], rest)
    else if c = '\\' then
      match rest with
      | [] => none
      | e :: rest2 =>
        if e = '"' then consFst '"' (parseStringBody rest2)
        else if e = '\\' then consFst '\\' (parseStringBody rest2)
        else if e = '/' then consFst '/' (parseStringBody rest2)
        else if e = 'b' then consFst (Char.ofNat 8) (parseStringBody rest2)
        else if e = 'f' then consFst (Char.ofNat 12) (parseStringBody rest2)
        else if e = 'n' then consFst (Char.ofNat 10) (parseStringBody rest2)
        else if e = 'r' then consFst (Char.ofNat 13) (parseStringBody rest2)
        else if e = 't' then consFst (Char.ofNat 9) (parseStringBody rest2)
        else if e = 'u' then
          match rest2 with
          | h1 :: h2 :: h3 :: h4 :: rest3 =>
            match hex4 h1 h2 h3 h4 with
            | none => none
            | some n =>
              if 55296 ≤ n ∧ n < 57344 then
                consFst (surrogateStep n rest3).1
                  (parseStringBody (surrogateStep n rest3).2)
              else consFst (Char.ofNat n) (parseStringBody rest3)
          | _ => none
        else none
    else consFst c (parseStringBody rest)
termination_by cs.length
decreasing_by
  all_goals simp_wf
  all_goals try omega
  have hss : (surrogateStep n rest3).2.length ≤ rest3.length := by
    unfold surrogateStep
    repeat' split
    all_goals simp
    omega
  omega

/-- A JSON string literal: opening quote then body. -/
def parseJSONString (cs : List Char) : Option (List Char × List Char) :=
  match cs with
  | [] => none
  | c :: rest => if c = '"' then parseStringBody rest else none

/-- Is the first character a decimal digit? -/
def headIsDigit : List Char → Bool
  | [] => false
  | c :: _ => 48 ≤ c.toNat && c.toNat ≤ 57

/-- Digit-run accumulator of the number parser. -/
def parseNatAux : List Char → Nat → Nat × List Char
  | [], acc => (acc, [])
  | c :: rest, acc =>
    if 48 ≤ c.toNat ∧ c.toNat ≤ 57 then parseNatAux rest (acc * 10 + (c.toNat - 48))
    else (acc, c :: rest)

/-- A JSON integer: optional minus sign, then at least one digit. -/
def parseJSONInt (cs : List Char) : Option (Int × List Char) :=
  match cs with
  | [] => none
  | c :: rest =>
    if c = '-' then
      if headIsDigit rest then
        let p := parseNatAux rest 0
        some (-(p.1 : Int), p.2)
      else none
    else if headIsDigit (c :: rest) then
      let p := parseNatAux (c :: rest) 0
      some ((p.1 : Int), p.2)
    else none

/-- The JSON object `encoding/json` marshals a `wireMetadata` to: the five
fields in struct declaration order, no whitespace. -/
def encodeMetaObject (m : wireMetadata) : List Char :=
  "\x7b\"id\":".data ++ encodeJSONString m.id
    ++ ",\"fileName\":".data ++ encodeJSONString m.fileName
    ++ ",\"fileSize\":".data ++ intToDigits m.fileSize
    ++ ",\"senderId\":".data ++ encodeJSONString m.senderId
    ++ ",\"senderName\":".data ++ encodeJSONString m.senderName
    ++ "\x7d".data

/-- `json.Encoder.Encode`: the marshalled object followed by one `\n` (the
newline-delimited metadata frame on the wire). -/
def encodeFrame (m : wireMetadata) : List Char :=
  encodeMetaObject m ++ ['\n']

/-- Consume an expected literal prefix. -/
def expects : List Char → List Char → Option (List Char)
  | [], cs => some cs
  | _ :: _, [] => none
  | e :: es, c :: cs => if c = e then expects es cs else none

/-- `json.Decoder.Decode` into `wireMetadata`, on the grammar the encoder
emits: the five keys in order, string values by JSON string-literal
unescaping, the `int64` in decimal.  Returns the decoded frame and the
input left in the decoder's buffer (the trailing `\n` is not consumed by
`Decode`). -/
def decodeFrame (cs : List Char) : Option (wireMetadata × List Char) := do
  let cs ← expects "\x7b\"id\":".data cs
  let (idC, cs) ← parseJSONString cs
  let cs ← expects ",\"fileName\":".data cs
  let (fnC, cs) ← parseJSONString cs
  let cs ← expects ",\"fileSize\":".data cs
  let (sz, cs) ← parseJSONInt cs
  let cs ← expects ",\"senderId\":".data cs
  let (sidC, cs) ← parseJSONString cs
  let cs ← expects ",\"senderName\":".data cs
  let (snC, cs) ← parseJSONString cs
  let cs ← expects "\x7d".data cs
  pure (⟨⟨idC⟩, ⟨fnC⟩, sz, ⟨sidC⟩, ⟨snC⟩⟩, cs)

/-- The peer-resolution-and-dial step at the top of `SendStream` (and
`SendFile`): `GetDevice(peerID)`; not found → return the error
`peer not found: id` with no side effects; found → dial `peer.IP:peer.Port`
(the dial target is returned). -/
def sendStreamResolve (reg : Registry) (peerID : String) :
    Except String (String × Int) :=
  match GetDevice reg peerID with
  | none => Except.error ("peer not found: " ++ peerID)
  | some peer => Except.ok (peer.ip, peer.port)

/-! ## Claim theorems -/

/-! ## Theorems -/

theorem skipLoop_eq_dropWhile (bs : List Nat) :
    skipLoop bs = bs.dropWhile isWireWhitespace := by
  induction bs with
  | nil => rfl
  | cons b rest ih =>
    by_cases h : isWireWhitespace b
    · simp [skipLoop, List.dropWhile, h, ih]
    · simp [skipLoop, List.dropWhile, h]

theorem skipLoop_id_of_head_not_ws (b : Nat) (bs : List Nat)
    (h : isWireWhitespace b = false) : skipLoop (b :: bs) = b :: bs := by
  simp [skipLoop, h]

theorem skipLoop_length_le (bs : List Nat) : (skipLoop bs).length ≤ bs.length := by
  induction bs with
  | nil => simp [skipLoop]
  | cons b rest ih =>
    by_cases h : isWireWhitespace b
    · simp only [skipLoop, h, if_pos]
      exact le_trans ih (Nat.le_succ _)
    · simp [skipLoop, h]

theorem GetDevices_not_mem_of_stale (reg : Registry) (now : Int) (d : Device)
    (hstale : livenessWindow ≤ now - d.lastSeen) :
    d ∉ GetDevices reg now := by
  intro hmem
  have := (List.mem_filter.mp hmem).2
  simp only [decide_eq_true_eq] at this
  omega

theorem lookup_overwrite (k : String) (v : Device) (reg : List (String × Device)) :
    (reg.map (fun e => if e.1 = k then (k, v) else e)).lookup k =
      if (reg.lookup k).isSome then some v else none := by
  induction reg with
  | nil => simp [List.lookup]
  | cons e rest ih =>
    obtain ⟨a, b⟩ := e
    by_cases h : a = k
    · subst h
      rw [List.map_cons, if_pos rfl]
      simp [List.lookup]
    · have hbeq : (k == a) = false := beq_eq_false_iff_ne.mpr (Ne.symm h)
      rw [List.map_cons, if_neg h]
      simp only [List.lookup, hbeq, ih]

theorem lookup_append_single (k : String) (v : Device) (reg : List (String × Device))
    (h : reg.lookup k = none) : (reg ++ [(k, v)]).lookup k = some v := by
  induction reg with
  | nil => simp [List.lookup]
  | cons e rest ih =>
    obtain ⟨a, b⟩ := e
    by_cases ha : k = a
    · subst ha
      simp [List.lookup] at h
    · have hbeq : (k == a) = false := beq_eq_false_iff_ne.mpr ha
      simp only [List.lookup, hbeq] at h
      simp only [List.cons_append, List.lookup, hbeq]
      exact ih h

theorem lookup_upsertDevice_self (reg : Registry) (d : Device) :
    (upsertDevice reg d).lookup d.id = some d := by
  unfold upsertDevice
  by_cases h : (reg.lookup d.id).isSome
  · rw [if_pos h, lookup_overwrite, if_pos h]
  · rw [if_neg h]
    apply lookup_append_single
    exact Option.not_isSome_iff_eq_none.mp h

theorem mem_of_lookup_some {k : String} {v : Device} :
    ∀ reg : List (String × Device), reg.lookup k = some v → (k, v) ∈ reg := by
  intro reg
  induction reg with
  | nil => intro h; simp [List.lookup] at h
  | cons e rest ih =>
    intro h
    obtain ⟨a, b⟩ := e
    by_cases ha : k = a
    · subst ha
      simp only [List.lookup, beq_self_eq_true] at h
      injection h with h
      subst h
      exact List.mem_cons_self _ _
    · have hbeq : (k == a) = false := beq_eq_false_iff_ne.mpr ha
      simp only [List.lookup, hbeq] at h
      exact List.mem_cons_of_mem _ (ih h)

theorem upsertDevice_mem_GetDevices (reg : Registry) (d : Device) (now : Int)
    (hfresh : d.lastSeen = now) :
    d ∈ GetDevices (upsertDevice reg d) now := by
  have hmem : (d.id, d) ∈ upsertDevice reg d :=
    mem_of_lookup_some _ (lookup_upsertDevice_self reg d)
  unfold GetDevices
  apply List.mem_filter.mpr
  refine ⟨List.mem_map.mpr ⟨(d.id, d), hmem, rfl⟩, ?_⟩
  simp only [decide_eq_true_eq, hfresh]
  simp [livenessWindow]

theorem chunkStep_progressOf (f t : Int) (n : Nat) :
    chunkStep f ⟨t, progressOf f t⟩ n = ⟨t + n, progressOf f (t + n)⟩ := by
  unfold chunkStep progressOf
  by_cases h : 0 < f <;> simp [h]

theorem progressOf_nonneg (f t : Int) (h : 0 ≤ t) : 0 ≤ progressOf f t := by
  unfold progressOf
  by_cases hf : 0 < f
  · rw [if_pos hf]
    have h1 : (0 : ℚ) ≤ (t : ℚ) := by exact_mod_cast h
    have h2 : (0 : ℚ) ≤ (f : ℚ) := by exact_mod_cast le_of_lt hf
    positivity
  · rw [if_neg hf]

theorem progressOf_le_100 (f t : Int) (h : 0 < f → t ≤ f) :
    progressOf f t ≤ 100 := by
  unfold progressOf
  by_cases hf : 0 < f
  · rw [if_pos hf]
    have hle : (t : ℚ) / (f : ℚ) ≤ 1 := by
      rw [div_le_one (by exact_mod_cast hf)]
      exact_mod_cast h hf
    calc (t : ℚ) / (f : ℚ) * 100 ≤ 1 * 100 := by
          exact mul_le_mul_of_nonneg_right hle (by norm_num)
      _ = 100 := by norm_num
  · rw [if_neg hf]; norm_num

theorem progressOf_mono (f t t' : Int) (h : t ≤ t') :
    progressOf f t ≤ progressOf f t' := by
  unfold progressOf
  by_cases hf : 0 < f
  · rw [if_pos hf, if_pos hf]
    have hfq : (0 : ℚ) < (f : ℚ) := by exact_mod_cast hf
    have hdiv : (t : ℚ) / (f : ℚ) ≤ (t' : ℚ) / (f : ℚ) :=
      (div_le_div_iff_of_pos_right hfq).mpr (by exact_mod_cast h)
    exact mul_le_mul_of_nonneg_right hdiv (by norm_num)
  · rw [if_neg hf, if_neg hf]

theorem chunkSum_nonneg (chunks : List Nat) : 0 ≤ chunkSum chunks := by
  induction chunks with
  | nil => simp [chunkSum]
  | cons n rest ih =>
    simp only [chunkSum, List.foldr] at *
    positivity

theorem chunkSum_cons (n : Nat) (rest : List Nat) :
    chunkSum (n :: rest) = (n : Int) + chunkSum rest := rfl

theorem loopStates_head_cons (f : Int) (st : LoopState) (chunks : List Nat) :
    ∃ tl, loopStates f st chunks = st :: tl := by
  cases chunks <;> exact ⟨_, rfl⟩

theorem progress_chain (f : Int) (chunks : List Nat) :
    ∀ t : Int, 0 ≤ t → (0 < f → t + chunkSum chunks ≤ f) →
    List.Chain' (fun a b => a ≤ b)
      ((loopStates f ⟨t, progressOf f t⟩ chunks).map LoopState.progress ++ [100]) ∧
    ∀ p ∈ (loopStates f ⟨t, progressOf f t⟩ chunks).map LoopState.progress,
      0 ≤ p ∧ p ≤ 100 := by
  induction chunks with
  | nil =>
    intro t h0 hsum
    have hle : progressOf f t ≤ 100 :=
      progressOf_le_100 f t (fun hf => by have := hsum hf; simp [chunkSum] at this; omega)
    refine ⟨?_, ?_⟩
    · simp only [loopStates, List.map_cons, List.map_nil, List.cons_append,
        List.nil_append]
      exact List.chain'_cons.mpr ⟨hle, List.chain'_singleton _⟩
    · intro p hp
      simp only [loopStates, List.map_cons, List.map_nil, List.mem_singleton] at hp
      subst hp
      exact ⟨progressOf_nonneg f t h0, hle⟩
  | cons n rest ih =>
    intro t h0 hsum
    have hsum' : 0 < f → t + n + chunkSum rest ≤ f := by
      intro hf
      have := hsum hf
      rw [chunkSum_cons] at this
      omega
    have ihspec := ih (t + n) (by positivity) hsum'
    have hmono : progressOf f t ≤ progressOf f (t + n) :=
      progressOf_mono f t (t + n) (by omega)
    obtain ⟨tl, htl⟩ := loopStates_head_cons f ⟨t + n, progressOf f (t + n)⟩ rest
    refine ⟨?_, ?_⟩
    · simp only [loopStates, chunkStep_progressOf, List.map_cons, List.cons_append]
      rw [htl] at ihspec ⊢
      simp only [List.map_cons, List.cons_append] at ihspec ⊢
      exact List.chain'_cons.mpr ⟨hmono, ihspec.1⟩
    · intro p hp
      simp only [loopStates, chunkStep_progressOf, List.map_cons,
        List.mem_cons] at hp
      rcases hp with hp | hp
      · subst hp
        refine ⟨progressOf_nonneg f t h0, progressOf_le_100 f t ?_⟩
        intro hf
        have h1 := hsum hf
        have h2 := chunkSum_nonneg (n :: rest)
        omega
      · exact ihspec.2 p hp

theorem surrogateStep_len (n : Nat) (l : List Char) :
    (surrogateStep n l).2.length ≤ l.length := by
  unfold surrogateStep
  repeat' split
  all_goals simp
  omega

theorem charToNat_ofNat_valid (n : Nat) (h : n < 55296) : (Char.ofNat n).toNat = n := by
  have hv : n.isValidChar := Or.inl h
  simp only [Char.ofNat, dif_pos hv]
  rfl

theorem hexVal_hexDigitChar (d : Nat) (h : d < 16) :
    hexVal (hexDigitChar d) = some d := by
  interval_cases d <;> rfl

theorem parseStringBody_closeQuote (l : List Char) :
    parseStringBody ('"' :: l) = some ([], l) := by
  rw [parseStringBody.eq_def]
  simp

theorem parseStringBody_default (c : Char) (l : List Char)
    (h1 : c ≠ '"') (h2 : c ≠ '\\') :
    parseStringBody (c :: l) = consFst c (parseStringBody l) := by
  rw [parseStringBody.eq_def]
  simp [h1, h2]

theorem parseStringBody_escQuote (l : List Char) :
    parseStringBody ('\\' :: '"' :: l) = consFst '"' (parseStringBody l) := by
  rw [parseStringBody.eq_def]
  simp

theorem parseStringBody_escBackslash (l : List Char) :
    parseStringBody ('\\' :: '\\' :: l) = consFst '\\' (parseStringBody l) := by
  rw [parseStringBody.eq_def]
  simp

theorem parseStringBody_escN (l : List Char) :
    parseStringBody ('\\' :: 'n' :: l) = consFst (Char.ofNat 10) (parseStringBody l) := by
  rw [parseStringBody.eq_def]
  simp

theorem parseStringBody_escR (l : List Char) :
    parseStringBody ('\\' :: 'r' :: l) = consFst (Char.ofNat 13) (parseStringBody l) := by
  rw [parseStringBody.eq_def]
  simp

theorem parseStringBody_escT (l : List Char) :
    parseStringBody ('\\' :: 't' :: l) = consFst (Char.ofNat 9) (parseStringBody l) := by
  rw [parseStringBody.eq_def]
  simp

theorem parseStringBody_escU (d1 d2 d3 d4 : Char) (n : Nat) (l : List Char)
    (hh : hex4 d1 d2 d3 d4 = some n) (hn : n < 55296) :
    parseStringBody ('\\' :: 'u' :: d1 :: d2 :: d3 :: d4 :: l) =
      consFst (Char.ofNat n) (parseStringBody l) := by
  rw [parseStringBody.eq_def]
  simp [hh]
  omega

theorem hex4_control (t : Nat) (h : t < 32) :
    hex4 '0' '0' (hexDigitChar (t / 16)) (hexDigitChar (t % 16)) = some t := by
  have h1 : hexVal (hexDigitChar (t / 16)) = some (t / 16) :=
    hexVal_hexDigitChar _ (by omega)
  have h2 : hexVal (hexDigitChar (t % 16)) = some (t % 16) :=
    hexVal_hexDigitChar _ (by omega)
  have h0 : hexVal '0' = some 0 := rfl
  simp only [hex4, h0, h1, h2]
  congr 1
  omega

theorem parseStringBody_escapeChars (l rest : List Char) :
    parseStringBody (escapeChars l ++ ('"' :: rest)) = some (l, rest) := by
  induction l with
  | nil =>
    simp only [escapeChars, List.nil_append]
    exact parseStringBody_closeQuote rest
  | cons c cs ih =>
    simp only [escapeChars, List.append_assoc]
    by_cases h1 : c = '"'
    · subst h1
      have he : escapeChar '"' = ['\\', '"'] := rfl
      rw [he]
      simp only [List.cons_append, List.nil_append]
      rw [parseStringBody_escQuote, ih]
      rfl
    · by_cases h2 : c = '\\'
      · subst h2
        have he : escapeChar '\\' = ['\\', '\\'] := rfl
        rw [he]
        simp only [List.cons_append, List.nil_append]
        rw [parseStringBody_escBackslash, ih]
        rfl
      · by_cases h3 : c = '\n'
        · subst h3
          have he : escapeChar '\n' = ['\\', 'n'] := rfl
          rw [he]
          simp only [List.cons_append, List.nil_append]
          rw [parseStringBody_escN, ih]
          rfl
        · by_cases h4 : c = '\x0d'
          · subst h4
            have he : escapeChar '\x0d' = ['\\', 'r'] := rfl
            rw [he]
            simp only [List.cons_append, List.nil_append]
            rw [parseStringBody_escR, ih]
            rfl
          · by_cases h5 : c = '\t'
            · subst h5
              have he : escapeChar '\t' = ['\\', 't'] := rfl
              rw [he]
              simp only [List.cons_append, List.nil_append]
              rw [parseStringBody_escT, ih]
              rfl
            · by_cases h6 : c.toNat < 32
              · rw [escapeChar, if_neg h1, if_neg h2, if_neg h3, if_neg h4,
                  if_neg h5, if_pos h6]
                simp only [List.cons_append, List.nil_append]
                rw [parseStringBody_escU _ _ _ _ c.toNat _
                  (hex4_control c.toNat h6) (by omega), Char.ofNat_toNat, ih]
                rfl
              · by_cases h7 : c = '<'
                · subst h7
                  have he : escapeChar '<' = ['\\', 'u', '0', '0', '3', 'c'] := rfl
                  rw [he]
                  simp only [List.cons_append, List.nil_append]
                  rw [parseStringBody_escU '0' '0' '3' 'c' 60 _ rfl (by omega), ih]
                  rfl
                · by_cases h8 : c = '>'
                  · subst h8
                    have he : escapeChar '>' = ['\\', 'u', '0', '0', '3', 'e'] := rfl
                    rw [he]
                    simp only [List.cons_append, List.nil_append]
                    rw [parseStringBody_escU '0' '0' '3' 'e' 62 _ rfl (by omega), ih]
                    rfl
                  · by_cases h9 : c = '&'
                    · subst h9
                      have he : escapeChar '&' = ['\\', 'u', '0', '0', '2', '6'] := rfl
                      rw [he]
                      simp only [List.cons_append, List.nil_append]
                      rw [parseStringBody_escU '0' '0' '2' '6' 38 _ rfl (by omega), ih]
                      rfl
                    · by_cases h10 : c.toNat = 8232
                      · rw [escapeChar, if_neg h1, if_neg h2, if_neg h3,
                          if_neg h4, if_neg h5, if_neg h6, if_neg h7, if_neg h8,
                          if_neg h9, if_pos h10]
                        simp only [List.cons_append, List.nil_append]
                        rw [parseStringBody_escU '2' '0' '2' '8' 8232 _ rfl (by omega),
                          ih, ← h10, Char.ofNat_toNat]
                        rfl
                      · by_cases h11 : c.toNat = 8233
                        · rw [escapeChar, if_neg h1, if_neg h2, if_neg h3,
                            if_neg h4, if_neg h5, if_neg h6, if_neg h7,
                            if_neg h8, if_neg h9, if_neg h10, if_pos h11]
                          simp only [List.cons_append, List.nil_append]
                          rw [parseStringBody_escU '2' '0' '2' '9' 8233 _ rfl
                            (by omega), ih, ← h11, Char.ofNat_toNat]
                          rfl
                        · rw [escapeChar, if_neg h1, if_neg h2, if_neg h3,
                            if_neg h4, if_neg h5, if_neg h6, if_neg h7,
                            if_neg h8, if_neg h9, if_neg h10, if_neg h11]
                          simp only [List.cons_append, List.nil_append]
                          rw [parseStringBody_default c _ h1 h2, ih]
                          rfl

theorem digitChar_toNat (d : Nat) (h : d < 10) : (digitChar d).toNat = 48 + d := by
  unfold digitChar
  exact charToNat_ofNat_valid _ (by omega)

theorem parseNatAux_digit (d : Nat) (h : d < 10) (l : List Char) (acc : Nat) :
    parseNatAux (digitChar d :: l) acc = parseNatAux l (acc * 10 + d) := by
  have ht := digitChar_toNat d h
  simp only [parseNatAux, ht]
  rw [if_pos (by omega)]
  congr 1
  omega

theorem parseNatAux_natToDigits (n : Nat) :
    ∀ acc (rest : List Char),
      parseNatAux (natToDigits n ++ rest) acc =
        parseNatAux rest (acc * 10 ^ (natToDigits n).length + n) := by
  induction n using Nat.strong_induction_on with
  | _ n ih =>
    intro acc rest
    by_cases h : n < 10
    · rw [natToDigits, dif_pos h]
      simp only [List.singleton_append, List.length_singleton, pow_one]
      exact parseNatAux_digit n h rest acc
    · rw [natToDigits, dif_neg h]
      have hlt : n / 10 < n := Nat.div_lt_self (by omega) (by omega)
      rw [List.append_assoc, List.singleton_append, ih (n / 10) hlt,
        parseNatAux_digit (n % 10) (Nat.mod_lt n (by omega)) rest,
        List.length_append, List.length_singleton, pow_succ, ← mul_assoc]
      congr 1
      have hdm : 10 * (n / 10) + n % 10 = n := Nat.div_add_mod n 10
      set A := acc * 10 ^ (natToDigits (n / 10)).length with hA
      omega

theorem parseNatAux_stop (rest : List Char) (acc : Nat)
    (h : headIsDigit rest = false) : parseNatAux rest acc = (acc, rest) := by
  match rest with
  | [] => rfl
  | c :: l =>
    simp only [headIsDigit, Bool.and_eq_false_iff, decide_eq_false_iff_not] at h
    rw [parseNatAux, if_neg (by omega)]

theorem natToDigits_head (n : Nat) :
    ∃ c l, natToDigits n = c :: l ∧ 48 ≤ c.toNat ∧ c.toNat ≤ 57 := by
  induction n using Nat.strong_induction_on with
  | _ n ih =>
    by_cases h : n < 10
    · refine ⟨digitChar n, [], by rw [natToDigits, dif_pos h], ?_⟩
      rw [digitChar_toNat n h]
      omega
    · obtain ⟨c, l, heq, hlo, hhi⟩ := ih (n / 10) (Nat.div_lt_self (by omega) (by omega))
      exact ⟨c, l ++ [digitChar (n % 10)],
        by rw [natToDigits, dif_neg h, heq, List.cons_append], hlo, hhi⟩

theorem parseJSONInt_roundtrip (i : Int) (rest : List Char)
    (h : headIsDigit rest = false) :
    parseJSONInt (intToDigits i ++ rest) = some (i, rest) := by
  by_cases hi : i < 0
  · rw [intToDigits, if_pos hi, List.cons_append, parseJSONInt]
    obtain ⟨c, l, heq, hlo, hhi⟩ := natToDigits_head i.natAbs
    rw [if_pos rfl, heq]
    have hd : headIsDigit ((c :: l) ++ rest) = true := by
      simp [headIsDigit, List.cons_append]
      omega
    rw [List.cons_append] at hd ⊢
    rw [if_pos hd, ← List.cons_append, ← heq, parseNatAux_natToDigits,
      parseNatAux_stop rest _ h]
    simp only [zero_mul, zero_add, Option.some.injEq, Prod.mk.injEq, and_true]
    omega
  · rw [intToDigits, if_neg hi]
    obtain ⟨c, l, heq, hlo, hhi⟩ := natToDigits_head i.toNat
    rw [heq, List.cons_append, parseJSONInt]
    have hc : ¬ c = '-' := by
      intro hc
      rw [hc] at hlo
      have h45 : ('-').toNat = 45 := rfl
      omega
    rw [if_neg hc]
    have hd : headIsDigit (c :: (l ++ rest)) = true := by
      simp [headIsDigit]
      omega
    rw [if_pos hd, ← List.cons_append, ← heq, parseNatAux_natToDigits,
      parseNatAux_stop rest _ h]
    simp only [zero_mul, zero_add, Option.some.injEq, Prod.mk.injEq, and_true]
    omega

theorem parseJSONString_quote (l : List Char) :
    parseJSONString ('"' :: l) = parseStringBody l := by
  simp [parseJSONString]

theorem expects_cons (e : Char) (es cs : List Char) :
    expects (e :: es) (e :: cs) = expects es cs := by
  simp [expects]

theorem expects_nil (cs : List Char) : expects [] cs = some cs := rfl

theorem headIsDigit_comma (l : List Char) : headIsDigit (',' :: l) = false := rfl

theorem decodeFrame_encodeFrame (m : wireMetadata) :
    decodeFrame (encodeFrame m) = some (m, ['\n']) := by
  simp only [encodeFrame, encodeMetaObject, encodeJSONString, decodeFrame,
    List.append_assoc, List.cons_append, List.singleton_append, List.nil_append,
    expects_cons, expects_nil, Option.bind_eq_bind, Option.some_bind,
    parseJSONString_quote, parseStringBody_escapeChars, parseJSONInt_roundtrip,
    headIsDigit_comma, Option.pure_def]

/-- C1 counterexample: with the metadata frame immediately followed by the
exact payload `[10, 120]` (a newline byte then `x`) and zero inserted
delimiter bytes — one byte of it already in the decoder's buffer — the
receive path saves `[120]`, not the original payload: the skip loop eats
payload bytes. -/
theorem C1_counterexample :
    receivedFileBytes [10] [120] = [120] ∧
      receivedFileBytes [10] [120] ≠ [10, 120] := by
  decide

/-- C1 (amended): if the metadata frame is immediately followed by the
exact file payload with zero inserted delimiter bytes and the payload does
not begin with a `\n`, `\r` or space byte, the bytes written to disk equal
the original payload exactly, for every split of the payload between the
frame decoder's internal buffer and the unread connection. -/
theorem C1_exact_payload_preserved (payload buffered rest : List Nat)
    (hsplit : buffered ++ rest = payload)
    (hhead : ∀ b bs, payload = b :: bs → isWireWhitespace b = false) :
    receivedFileBytes buffered rest = payload := by
  unfold receivedFileBytes combinedStream
  rw [hsplit]
  match payload with
  | [] => rfl
  | b :: bs => exact skipLoop_id_of_head_not_ws b bs (hhead b bs rfl)

theorem C1_witness :
    ([112] ++ [97] = [112, 97] ∧
      ∀ b bs, ([112, 97] : List Nat) = b :: bs → isWireWhitespace b = false) ∧
      receivedFileBytes [112] [97] = [112, 97] := by
  refine ⟨⟨rfl, ?_⟩, ?_⟩
  · intro b bs h
    cases h
    decide
  · exact C1_exact_payload_preserved [112, 97] [112] [97] rfl
      (fun b bs h => by cases h; decide)

/-- C2: a second inbound connection presenting an id already in the
pending table is closed immediately, the original `PendingTransfer` is
left untouched, and `ListPending()` still contains exactly one entry for
that id afterward. -/
theorem C2_duplicate_refused (pending : PendingTable) (meta : wireMetadata)
    (pt : PendingTransfer) (hdup : pending.lookup meta.id = some pt)
    (hcount : pendingCountFor pending meta.id = 1) :
    handleIncomingRegister pending meta = (pending, true) ∧
      (handleIncomingRegister pending meta).1.lookup meta.id = some pt ∧
      pendingCountFor (handleIncomingRegister pending meta).1 meta.id = 1 := by
  have hreg : handleIncomingRegister pending meta = (pending, true) := by
    unfold handleIncomingRegister
    rw [if_pos (by simp [hdup])]
  exact ⟨hreg, by rw [hreg]; exact hdup, by rw [hreg]; exact hcount⟩

theorem C2_witness :
    ([("t", PendingTransfer.mk "t" "f" 1 "s" "n")].lookup "t" =
        some (PendingTransfer.mk "t" "f" 1 "s" "n") ∧
      pendingCountFor [("t", PendingTransfer.mk "t" "f" 1 "s" "n")] "t" = 1) ∧
      handleIncomingRegister [("t", PendingTransfer.mk "t" "f" 1 "s" "n")]
          (wireMetadata.mk "t" "g" 2 "s2" "n2") =
        ([("t", PendingTransfer.mk "t" "f" 1 "s" "n")], true) := by
  refine ⟨⟨by decide, by decide⟩, ?_⟩
  exact (C2_duplicate_refused [("t", PendingTransfer.mk "t" "f" 1 "s" "n")]
    (wireMetadata.mk "t" "g" 2 "s2" "n2") (PendingTransfer.mk "t" "f" 1 "s" "n")
    (by decide) (by decide)).1

/-- C3 counterexample: a send-direction transfer hit by a mid-stream I/O
error (declared size 10, 4 bytes already written) is marked `failed` and a
`transfer_update` is emitted, but no history entry at all is recorded —
the claim's "records a history entry with status failed ... in either
direction" is false for the send direction. -/
theorem C3_counterexample :
    (runSendStream 10 [4] StreamEnd.ioError).status = "failed" ∧
      (runSendStream 10 [4] StreamEnd.ioError).history = [] ∧
      "failed" ∉ (runSendStream 10 [4] StreamEnd.ioError).history := by
  refine ⟨rfl, rfl, ?_⟩
  intro hmem
  rw [show (runSendStream 10 [4] StreamEnd.ioError).history = [] from rfl] at hmem
  exact List.not_mem_nil _ hmem

/-- C3 (amended): a read or write failure during streaming marks the
transfer `failed` and emits a `transfer_update` telemetry event in either
direction, and the worker returns without retrying; a `failed` history
entry is recorded only on the receive side — the send side records no
history entry for a mid-stream failure. -/
theorem C3_stream_error_effects (fileSize : Int) (chunks : List Nat) :
    (runReceiveStream fileSize chunks StreamEnd.ioError).status = "failed" ∧
      (runReceiveStream fileSize chunks StreamEnd.ioError).events =
        ["transfer_update"] ∧
      (runReceiveStream fileSize chunks StreamEnd.ioError).history = ["failed"] ∧
      (runSendStream fileSize chunks StreamEnd.ioError).status = "failed" ∧
      (runSendStream fileSize chunks StreamEnd.ioError).events =
        ["transfer_update"] ∧
      (runSendStream fileSize chunks StreamEnd.ioError).history = [] := by
  exact ⟨rfl, rfl, rfl, rfl, rfl, rfl⟩

/-- C4: a received payload beginning with newline, carriage-return or
space bytes is saved with the entire maximal leading run of those bytes
removed, which differs from the payload itself. -/
theorem C4_leading_whitespace_stripped (b : Nat) (bs : List Nat)
    (h : isWireWhitespace b = true) :
    receivedFileBytes [] (b :: bs) = (b :: bs).dropWhile isWireWhitespace ∧
      receivedFileBytes [] (b :: bs) ≠ b :: bs := by
  have heq : receivedFileBytes [] (b :: bs) = skipLoop (b :: bs) := by
    unfold receivedFileBytes combinedStream
    rw [List.nil_append]
  constructor
  · rw [heq, skipLoop_eq_dropWhile]
  · rw [heq]
    intro hcontra
    have hlen : (skipLoop (b :: bs)).length ≤ bs.length := by
      have : skipLoop (b :: bs) = skipLoop bs := by simp [skipLoop, h]
      rw [this]
      exact skipLoop_length_le bs
    rw [hcontra] at hlen
    simp at hlen

theorem C4_witness :
    isWireWhitespace 10 = true ∧
      receivedFileBytes [] [10, 120] = ([10, 120] : List Nat).dropWhile isWireWhitespace ∧
      receivedFileBytes [] [10, 120] ≠ [10, 120] := by
  refine ⟨by decide, ?_, ?_⟩
  · exact (C4_leading_whitespace_stripped 10 [120] (by decide)).1
  · exact (C4_leading_whitespace_stripped 10 [120] (by decide)).2

/-- C5 counterexample: a receive whose declared `fileSize` is 1 but whose
stream delivers a 2-byte chunk reaches `progress = 200`, so over the
lifetime `[0, 200, 100]` progress exceeds 100 and then decreases at the
`completed` transition — the claim's bounds and monotonicity fail as
stated. -/
theorem C5_counterexample :
    progressLifetime 1 [2] = [0, 200, 100] ∧
      ¬ List.Chain' (fun a b => a ≤ b) (progressLifetime 1 [2]) ∧
      ∃ p ∈ progressLifetime 1 [2], 100 < p := by
  have hval : progressLifetime 1 [2] = [0, 200, 100] := by
    unfold progressLifetime loopStates loopStates chunkStep
    norm_num
  refine ⟨hval, ?_, ?_⟩
  · rw [hval]
    simp [List.chain'_cons]
    norm_num
  · rw [hval]
    exact ⟨200, by simp, by norm_num⟩

/-- C5 (amended): for every transfer whose stream delivers no more bytes
in total than the declared positive `fileSize` (and any transfer with a
non-positive declared size and an empty stream equivalently satisfies the
guard), progress is monotonically non-decreasing over the lifetime, stays
within 0 to 100, and equals exactly 100 at and after the `completed`
transition. -/
theorem C5_progress_monotone_bounded (fileSize : Int) (chunks : List Nat)
    (h : 0 < fileSize → chunkSum chunks ≤ fileSize) :
    List.Chain' (fun a b => a ≤ b) (progressLifetime fileSize chunks) ∧
      (∀ p ∈ progressLifetime fileSize chunks, 0 ≤ p ∧ p ≤ 100) ∧
      (progressLifetime fileSize chunks).getLast? = some 100 := by
  have hzero : progressOf fileSize 0 = 0 := by
    unfold progressOf
    by_cases hf : 0 < fileSize
    · rw [if_pos hf]
      norm_num
    · rw [if_neg hf]
  have hstart : (⟨0, 0⟩ : LoopState) = ⟨0, progressOf fileSize 0⟩ := by
    rw [hzero]
  have hmain := progress_chain fileSize chunks 0 le_rfl (by simpa using h)
  unfold progressLifetime
  rw [hstart]
  refine ⟨hmain.1, ?_, ?_⟩
  · intro p hp
    rcases List.mem_append.mp hp with hp | hp
    · exact hmain.2 p hp
    · rw [List.mem_singleton.mp hp]
      norm_num
  · exact List.getLast?_concat _

theorem C5_witness :
    ((0 : Int) < 4 → chunkSum [2, 2] ≤ 4) ∧
      List.Chain' (fun a b => a ≤ b) (progressLifetime 4 [2, 2]) ∧
      (∀ p ∈ progressLifetime 4 [2, 2], 0 ≤ p ∧ p ≤ 100) ∧
      (progressLifetime 4 [2, 2]).getLast? = some 100 := by
  have hhyp : (0 : Int) < 4 → chunkSum [2, 2] ≤ 4 := by decide
  exact ⟨hhyp, C5_progress_monotone_bounded 4 [2, 2] hhyp⟩

/-- C6: `Accept(id)` and `Reject(id)` on an id absent from the pending
table return the `no pending transfer` error, deliver no decision signal,
and leave the pending table unchanged. -/
theorem C6_decision_notfound (pending : PendingTable) (id : String)
    (h : pending.lookup id = none) :
    AcceptTransfer pending id =
        ⟨pending, none, Except.error ("no pending transfer: " ++ id)⟩ ∧
      RejectTransfer pending id =
        ⟨pending, none, Except.error ("no pending transfer: " ++ id)⟩ := by
  constructor
  · unfold AcceptTransfer
    rw [h]
  · unfold RejectTransfer
    rw [h]

theorem C6_witness :
    (([("a", PendingTransfer.mk "a" "f" 1 "s" "n")] : PendingTable).lookup "x" =
        none) ∧
      AcceptTransfer [("a", PendingTransfer.mk "a" "f" 1 "s" "n")] "x" =
        ⟨[("a", PendingTransfer.mk "a" "f" 1 "s" "n")], none,
          Except.error ("no pending transfer: " ++ "x")⟩ := by
  refine ⟨by decide, ?_⟩
  exact (C6_decision_notfound [("a", PendingTransfer.mk "a" "f" 1 "s" "n")] "x"
    (by decide)).1

/-- C7: decoding the encoding of any valid metadata frame yields the frame
back: all five fields `id, fileName, fileSize, senderId, senderName`
survive the newline-delimited JSON serialization round-trip unchanged
(the trailing `\n` delimiter stays in the decoder's buffer). -/
theorem C7_metadata_roundtrip (m : wireMetadata) :
    decodeFrame (encodeFrame m) = some (m, ['\n']) :=
  decodeFrame_encodeFrame m

/-- C8: a device whose last advertisement is at least the 10-second
liveness window old is absent from `GetDevices` even though its record is
still in the registry, and a fresh advertisement for the same id makes it
reappear in `GetDevices` with `lastSeen` updated to the new time. -/
theorem C8_liveness_window (reg : Registry) (d : Device) (now : Int)
    (hmem : reg.lookup d.id = some d)
    (hstale : livenessWindow ≤ now - d.lastSeen)
    (d' : Device) (hid : d'.id = d.id) (hfresh : d'.lastSeen = now) :
    d ∉ GetDevices reg now ∧ reg.lookup d.id = some d ∧
      d' ∈ GetDevices (upsertDevice reg d') now ∧
      (upsertDevice reg d').lookup d.id = some d' := by
  refine ⟨GetDevices_not_mem_of_stale reg now d hstale, hmem, ?_, ?_⟩
  · exact upsertDevice_mem_GetDevices reg d' now hfresh
  · rw [← hid]
    exact lookup_upsertDevice_self reg d'

/-- Concrete instance for C8: device seen at time 0, queried at 10s. -/
theorem C8_witness :
    ([("a", Device.mk "a" "n" "u" "ip" 1 0)].lookup "a" =
        some (Device.mk "a" "n" "u" "ip" 1 0) ∧
      livenessWindow ≤ 10000000000 - 0 ∧
      (Device.mk "a" "n" "u" "ip" 1 10000000000).id = "a" ∧
      (Device.mk "a" "n" "u" "ip" 1 10000000000).lastSeen = 10000000000) ∧
      Device.mk "a" "n" "u" "ip" 1 0 ∉
        GetDevices [("a", Device.mk "a" "n" "u" "ip" 1 0)] 10000000000 ∧
      Device.mk "a" "n" "u" "ip" 1 10000000000 ∈
        GetDevices
          (upsertDevice [("a", Device.mk "a" "n" "u" "ip" 1 0)]
            (Device.mk "a" "n" "u" "ip" 1 10000000000)) 10000000000 := by
  refine ⟨⟨by decide, by decide, rfl, rfl⟩, ?_, ?_⟩
  · exact (C8_liveness_window [("a", Device.mk "a" "n" "u" "ip" 1 0)]
      (Device.mk "a" "n" "u" "ip" 1 0) 10000000000 (by decide) (by decide)
      (Device.mk "a" "n" "u" "ip" 1 10000000000) rfl rfl).1
  · exact (C8_liveness_window [("a", Device.mk "a" "n" "u" "ip" 1 0)]
      (Device.mk "a" "n" "u" "ip" 1 0) 10000000000 (by decide) (by decide)
      (Device.mk "a" "n" "u" "ip" 1 10000000000) rfl rfl).2.2.1

/-- C9: an advertiser tick with an empty identity sends no discovery
datagram; a tick with a non-empty identity sends exactly one datagram
carrying the device id, device name, identity, local ip and transfer
port. -/
theorem C9_advertise_only_signed_in (u did dn ip : String) (port : Int) :
    (u = "" → broadcastTick u did dn ip port = none) ∧
      (u ≠ "" → broadcastTick u did dn ip port =
        some ⟨did, dn, u, ip, port⟩) := by
  constructor
  · intro h
    unfold broadcastTick
    rw [if_pos h]
  · intro h
    unfold broadcastTick
    rw [if_neg h]

theorem C9_witness :
    broadcastTick "" "dev" "name" "10.0.0.2" 9091 = none ∧
      broadcastTick "alice" "dev" "name" "10.0.0.2" 9091 =
        some ⟨"dev", "name", "alice", "10.0.0.2", 9091⟩ := by
  constructor
  · exact (C9_advertise_only_signed_in "" "dev" "name" "10.0.0.2" 9091).1 rfl
  · exact (C9_advertise_only_signed_in "alice" "dev" "name" "10.0.0.2" 9091).2
      (by decide)

/-- C10: a registry record older than the 10-second liveness window is
absent from `GetDevices`, yet `GetDevice` (used by the send path) still
resolves it — no liveness filter — and the send path proceeds to dial the
stale record's address. -/
theorem C10_send_resolves_stale_peer (reg : Registry) (d : Device) (now : Int)
    (hmem : reg.lookup d.id = some d)
    (hstale : livenessWindow ≤ now - d.lastSeen) :
    GetDevice reg d.id = some d ∧ d ∉ GetDevices reg now ∧
      sendStreamResolve reg d.id = Except.ok (d.ip, d.port) := by
  refine ⟨hmem, GetDevices_not_mem_of_stale reg now d hstale, ?_⟩
  unfold sendStreamResolve
  rw [show GetDevice reg d.id = some d from hmem]

theorem C10_witness :
    ([("a", Device.mk "a" "n" "u" "10.0.0.9" 9091 0)].lookup "a" =
        some (Device.mk "a" "n" "u" "10.0.0.9" 9091 0) ∧
      livenessWindow ≤ 20000000000 - 0) ∧
      sendStreamResolve [("a", Device.mk "a" "n" "u" "10.0.0.9" 9091 0)] "a" =
        Except.ok ("10.0.0.9", 9091) := by
  refine ⟨⟨by decide, by decide⟩, ?_⟩
  exact (C10_send_resolves_stale_peer
    [("a", Device.mk "a" "n" "u" "10.0.0.9" 9091 0)]
    (Device.mk "a" "n" "u" "10.0.0.9" 9091 0) 20000000000 (by decide)
    (by decide)).2.2
